import Mathlib

/-!
Shallow embedding of the nexus plot decoder and the nexus-to-ecl summary
converter (`lib/nexus/nexus_plot.cpp`, together with the unit table pinned by
the `nexus_unit` test and the small helpers of `nexus/util.hpp`).

Byte streams are lists of naturals (one entry per byte).  A C++ `stream.read`
of `n` bytes is modelled as `readBytes n`: it fails with `unexpectedEof` when
fewer than `n` bytes remain.  In the C++ source a short read sets the stream's
failbit and the (uninitialised) buffer is not inspected further: every path
continues until a checked read throws `unexpected_eof`, so the observable
result of `load` is the same and the immediate-failure model is used
throughout.  `seekg(n, cur)` never fails in C++ (seeking past the end is
allowed and only the next read fails), which `List.drop` models exactly.

32-bit words arrive big-endian on the wire and the code byte-swaps them with
`ntohl` after reading; the net effect, modelled by `beWord`, is that a word's
value is the big-endian interpretation of its four stream bytes.  Floats are
kept as their 32-bit patterns (`interpret_float` in the source is a bit
reinterpretation, not a numeric conversion); the few places where the code
uses a float's numeric value (`(int32_t)` truncation, `operator<`,
`operator==`) are modelled by exact integer arithmetic on the scaled
magnitude of the IEEE-754 binary32 value.
-/

namespace NexusModel

/-- Error kinds of the decoder and converter, from the exception types used by
the source (`read_error`, `bad_header`, `unrecognized_unit_system`,
`unexpected_eof`).  `outOfBounds` models the undefined behaviour of an
out-of-range `std::vector::operator[]` in `nex::ecl_summary`, and
`inconsistentTimeAxis` is the converter-level error named by the spec's error
taxonomy (no code path produces it). -/
inductive Err where
  | readError
  | badHeader
  | unrecognizedUnitSystem
  | unexpectedEof
  | outOfBounds
  | inconsistentTimeAxis
deriving DecidableEq

deriving instance DecidableEq for Except

/-- A byte stream: the not-yet-consumed bytes of the input, one natural per
byte. -/
abbrev BStream := List Nat

/-- Model of `stream.read(buf, n)` followed by a `stream.good()` check: the
first `n` bytes and the rest of the stream, or `unexpectedEof` when fewer
than `n` bytes remain. -/
def readBytes (n : Nat) (s : BStream) : Except Err (List Nat × BStream) :=
  if n ≤ s.length then .ok (s.take n, s.drop n) else .error .unexpectedEof

/-- Big-endian 32-bit word value of four stream bytes; this is the value the
source obtains by reading the word and applying `ntohl`. -/
def beWord (bs : List Nat) : Nat :=
  match bs with
  | [b0, b1, b2, b3] => ((b0 * 256 + b1) * 256 + b2) * 256 + b3
  | _ => 0

/-- Split a byte list into consecutive 4-byte groups (the source reads bulk
buffers and then cuts them into 32-bit words / 4-byte tokens). -/
def chunk4 : List Nat → List (List Nat)
  | b0 :: b1 :: b2 :: b3 :: rest => [b0, b1, b2, b3] :: chunk4 rest
  | _ => []

/-- Reinterpret a 32-bit word as a signed `int32_t` (two's complement). -/
def toInt32 (w : Nat) : Int :=
  if w < 2 ^ 31 then (w : Int) else (w : Int) - 2 ^ 32

/-- Bytes of a string literal (ASCII, one byte per character). -/
def strBytes (s : String) : List Nat := s.data.map Char.toNat

/-- A string padded with spaces to a fixed token width, as bytes.  The binary
format stores class/instance names in 8 bytes and variable codes in 4 bytes,
space-padded. -/
def padBytes (n : Nat) (s : String) : List Nat :=
  strBytes s ++ List.replicate (n - (strBytes s).length) 32

/-- Strip trailing spaces from a token, producing the plain string bytes the
converter compares against (`std::string` keys of the keyword table). -/
def trimTok (tok : List Nat) : List Nat :=
  (tok.reverse.dropWhile (· = 32)).reverse

/-! IEEE-754 binary32 numerics, exact over `Nat`.

A bit pattern `b < 2^32` has sign `b / 2^23^...`, exponent `e` and fraction
`f`; its value is `±m * 2^(e₀ - 150)` where `m = 2^23 + f`, `e₀ = e` for
normal numbers and `m = f`, `e₀ = 1` for subnormals.  `fl32SMag` is the
magnitude scaled by `2^150`, an exact natural number, which suffices for the
three numeric uses in the source: `(int32_t)` truncation and the `<` / `==`
comparisons.  Exponent 255 (infinities, NaNs) is mapped to a huge magnitude;
truncating such a float is undefined behaviour in C++ and modelled as 0; NaN
comparison semantics are not modelled (no claim involves NaNs). -/

/-- Sign bit of a binary32 pattern. -/
def fl32Sign (b : Nat) : Bool := b / 2 ^ 31 % 2 = 1

/-- Exponent field of a binary32 pattern. -/
def fl32Exp (b : Nat) : Nat := b / 2 ^ 23 % 2 ^ 8

/-- Fraction field of a binary32 pattern. -/
def fl32Frac (b : Nat) : Nat := b % 2 ^ 23

/-- Magnitude of a binary32 value, scaled by `2^150` (exact). -/
def fl32SMag (b : Nat) : Nat :=
  if fl32Exp b = 0 then fl32Frac b * 2
  else (2 ^ 23 + fl32Frac b) * 2 ^ fl32Exp b

/-- Numeric equality of two binary32 patterns (C++ `operator==` on `float`):
equal scaled magnitudes and, unless both are zero, equal signs. -/
def fl32Eq (a b : Nat) : Bool :=
  fl32SMag a = fl32SMag b && (fl32SMag a = 0 || fl32Sign a = fl32Sign b)

/-- Numeric strict order on binary32 patterns (C++ `operator<` on `float`). -/
def fl32Lt (a b : Nat) : Bool :=
  match fl32Sign a, fl32Sign b with
  | true, false => !(fl32SMag a = 0 && fl32SMag b = 0)
  | false, true => false
  | false, false => fl32SMag a < fl32SMag b
  | true, true => fl32SMag b < fl32SMag a

/-- `(int32_t)` cast of a binary32 value: truncation toward zero.  Exponent
255 (inf/NaN) is undefined behaviour in C++ and modelled as 0. -/
def fl32TruncToInt (b : Nat) : Int :=
  if fl32Exp b = 255 then 0
  else
    let m : Nat := fl32SMag b / 2 ^ 150
    if fl32Sign b then -(m : Int) else (m : Int)

/-! Unit system.

The `Measure` enumeration and the metric-bars unit-string row are pinned by
the `nexus_unit` test in the sources.  The remaining pieces of
`nexus/unit.hpp` are not under `src/`. -/

/-- Modelled from the spec: the closed set of unit-system variants
("metric, metric-bars, english, lab"); `nexus/unit.hpp` is not in the
sources. -/
inductive UnitType where
  | metric
  | metric_bars
  | english
  | lab
deriving DecidableEq

/-- The closed set of physical measures, from the `nexus_unit` test. -/
inductive Measure where
  | compressibility
  | density
  | formation_volume_factor_gas
  | formation_volume_factor_oil
  | fraction
  | gas_liquid_ratio
  | length
  | moles
  | permeability
  | pressure
  | pressure_absolute
  | reservoir_rates
  | reservoir_volumes
  | surface_rates_gas
  | surface_rates_liquid
  | surface_volumes_gas
  | surface_volumes_liquid
  | temperature
  | time
  | viscosity
  | volume
  | water_cut
deriving DecidableEq

/-- Modelled from the spec: recognition of the 6-byte unit-system tag read
off the stream (`UnitSystem`'s constructor in the missing `nexus/unit.hpp`);
an unknown tag fails with `UnrecognizedUnitSystem`.  The spec fixes the
closed variant set but not the tag strings; representative 6-byte tags are
chosen here. -/
def unitTypeFromTag (tag : List Nat) : Option UnitType :=
  if tag = strBytes "METRIC" then some .metric
  else if tag = strBytes "METBAR" then some .metric_bars
  else if tag = strBytes "ENGLSH" then some .english
  else if tag = strBytes "LAB   " then some .lab
  else none

/-- Unit string for a measure under a unit system.  The metric-bars row is
exactly the table asserted by the `nexus_unit` test in the sources; the other
rows are not pinned by any source file or claim and are modelled as empty
strings. -/
def unitStr (u : UnitType) (m : Measure) : List Nat :=
  match u with
  | .metric_bars =>
    match m with
    | .compressibility => strBytes "BARS-1"
    | .density => strBytes "KG/M3"
    | .formation_volume_factor_gas => strBytes "RM3/SM3"
    | .formation_volume_factor_oil => strBytes "RM3/SM3"
    | .fraction => strBytes ""
    | .gas_liquid_ratio => strBytes "SM3/SM3"
    | .length => strBytes "M"
    | .moles => strBytes "KG-M"
    | .permeability => strBytes "MD"
    | .pressure => strBytes "BARS"
    | .pressure_absolute => strBytes "BARSA"
    | .reservoir_rates => strBytes "RM3/DAY"
    | .reservoir_volumes => strBytes "kRM3"
    | .surface_rates_gas => strBytes "SM3/DAY"
    | .surface_rates_liquid => strBytes "SM3/DAY"
    | .surface_volumes_gas => strBytes "kSM3"
    | .surface_volumes_liquid => strBytes "kSM3"
    | .temperature => strBytes "C"
    | .time => strBytes "DAY"
    | .viscosity => strBytes "CP"
    | .volume => strBytes "M3"
    | .water_cut => strBytes "SM3/SM3"
  | _ => []

/-- Modelled from the spec: the variable-code to measure mapping used by
`unit_str(variable_code)` (missing `nexus/unit.hpp`).  It covers the closed
key set of the keyword translation table; `QOP ↦ surface_rates_liquid` and
`WCUT ↦ water_cut` are fixed by the spec's end-to-end scenario (units
"SM3/DAY" and "SM3/SM3" under metric-bars). -/
def varMeasure (v : List Nat) : Option Measure :=
  if v = strBytes "QOP" then some .surface_rates_liquid
  else if v = strBytes "QWP" then some .surface_rates_liquid
  else if v = strBytes "QGP" then some .surface_rates_gas
  else if v = strBytes "GOR" then some .gas_liquid_ratio
  else if v = strBytes "WCUT" then some .water_cut
  else if v = strBytes "COP" then some .surface_volumes_liquid
  else if v = strBytes "CWP" then some .surface_volumes_liquid
  else if v = strBytes "CGP" then some .surface_volumes_gas
  else if v = strBytes "QWI" then some .surface_rates_liquid
  else if v = strBytes "QGI" then some .surface_rates_gas
  else if v = strBytes "CWI" then some .surface_volumes_liquid
  else if v = strBytes "CGI" then some .surface_volumes_gas
  else if v = strBytes "QPP" then some .surface_rates_liquid
  else if v = strBytes "CPP" then some .surface_volumes_liquid
  else none

/-- Unit string for a variable code (`unit_str(variable_code)`): code to
measure to string.  The converter only calls it on keys of the keyword
table, all of which `varMeasure` covers, so the `UnknownVariable` failure of
the real function is unreachable there and the model is total. -/
def unitStrVar (u : UnitType) (v : List Nat) : List Nat :=
  match varMeasure v with
  | some m => unitStr u m
  | none => []

/-! Data model: header, samples, plot, catalog. -/

/-- The decoded header: unit system plus eight non-negative integers.
Modelled from the spec for the field order (`nexus/util.hpp` with the struct
declaration is not in the sources): the class count, start date day/month/
year, and grid extents are the fields the observed code paths use. -/
structure NexusHeader where
  unit_system : UnitType
  num_classes : Int
  day : Int
  month : Int
  year : Int
  nx : Int
  ny : Int
  nz : Int
  num_wells : Int
deriving DecidableEq

/-- One decoded sample, in the field order of the brace-initialisation in
`read_vars`.  `time` and `value` are binary32 bit patterns. -/
structure NexusData where
  timestep : Int
  time : Nat
  max_perfs : Int
  classname : List Nat
  instancename : List Nat
  varname : List Nat
  value : Nat
deriving DecidableEq

/-- The complete decode result: header plus samples in file order. -/
structure NexusPlot where
  header : NexusHeader
  data : List NexusData
deriving DecidableEq

/-- The class-to-variable-codes catalog, `std::map<str<8>, vector<str<4>>>`:
an association list looked up by byte-exact key equality. -/
abbrev Catalog := List (List Nat × List (List Nat))

/-- First value bound to a key in an association list (`std::map::find`). -/
def alistFind (l : List (List Nat × α)) (k : List Nat) : Option α :=
  match l with
  | [] => none
  | (k', v) :: rest => if k' = k then some v else alistFind rest k

/-- Bind a key to a value, replacing an existing binding
(`std::map::operator[] =` assignment). -/
def alistSet (l : List (List Nat × α)) (k : List Nat) (v : α) :
    List (List Nat × α) :=
  match l with
  | [] => [(k, v)]
  | (k', v') :: rest =>
    if k' = k then (k, v) :: rest else (k', v') :: alistSet rest k v

/-! Header decoder (`read_header`). -/

/-- The 12-byte type tag the header must carry. -/
def tagBytes : List Nat := strBytes "PLOT  BIN   "

/-- `read_header`: skip 4 bytes, check the 12-byte type tag (mismatch or a
short read is `bad_header`), skip 4 six-byte blobs, read the 6-byte unit tag
(short read is `unexpected_eof`), recognise the unit system, skip 530 + 264
bytes, read eight big-endian 32-bit integers (short read is
`unexpected_eof`), and fail with `bad_header` if any is negative. -/
def readHeader (s : BStream) : Except Err (NexusHeader × BStream) :=
  let s0 := s.drop 4
  match readBytes 12 s0 with
  | .error _ => .error .badHeader
  | .ok (tag, s1) =>
    if tag ≠ tagBytes then .error .badHeader
    else
      let s2 := s1.drop 24
      match readBytes 6 s2 with
      | .error e => .error e
      | .ok (us, s3) =>
        match unitTypeFromTag us with
        | none => .error .unrecognizedUnitSystem
        | some u =>
          let s4 := s3.drop 794
          match readBytes 32 s4 with
          | .error e => .error e
          | .ok (ib, s5) =>
            let ints := (chunk4 ib).map (fun w => toInt32 (beWord w))
            if ints.any (· < 0) then .error .badHeader
            else
              .ok (⟨u, ints.getD 0 0, ints.getD 1 0, ints.getD 2 0,
                    ints.getD 3 0, ints.getD 4 0, ints.getD 5 0,
                    ints.getD 6 0, ints.getD 7 0⟩, s5)

/-! Variable-catalog decoder (`read_varnames`). -/

/-- Read `n` consecutive 8-byte class-name tokens. -/
def readClassnames (n : Nat) (s : BStream) :
    Except Err (List (List Nat) × BStream) :=
  match n with
  | 0 => .ok ([], s)
  | n + 1 =>
    match readBytes 8 s with
    | .error e => .error e
    | .ok (c, s1) =>
      match readClassnames n s1 with
      | .error e => .error e
      | .ok (cs, s2) => .ok (c :: cs, s2)

/-- Per-class variable-code section, as the code lays it out: for each class
(count taken from the per-class count list) skip the 4-byte time-variable
name, bulk-read `count * 4` bytes and cut them into 4-byte tokens, then skip
an 8-byte separator. -/
def readVarTokens (counts : List Int) (s : BStream) :
    Except Err (List (List (List Nat)) × BStream) :=
  match counts with
  | [] => .ok ([], s)
  | c :: rest =>
    let s1 := s.drop 4
    match readBytes (c.toNat * 4) s1 with
    | .error e => .error e
    | .ok (buf, s2) =>
      let s3 := s2.drop 8
      match readVarTokens rest s3 with
      | .error e => .error e
      | .ok (ts, s4) => .ok (chunk4 buf :: ts, s4)

/-- `read_varnames`: skip an 8-byte separator, read the class names, skip an
8-byte separator, read the per-class counts (negative after byte-swap is
`bad_header`), skip one 8-byte separator, then the per-class sections of
`readVarTokens`.  The catalog is assembled with `operator[]` assignment, so
a duplicated class name keeps the last class's codes. -/
def readVarnames (numClasses : Nat) (s : BStream) :
    Except Err (Catalog × BStream) :=
  let s0 := s.drop 8
  match readClassnames numClasses s0 with
  | .error e => .error e
  | .ok (cnames, s1) =>
    let s2 := s1.drop 8
    match readBytes (numClasses * 4) s2 with
    | .error e => .error e
    | .ok (cb, s3) =>
      let counts := (chunk4 cb).map (fun w => toInt32 (beWord w))
      if counts.any (· < 0) then .error .badHeader
      else
        let s4 := s3.drop 8
        match readVarTokens counts s4 with
        | .error e => .error e
        | .ok (toks, s5) =>
          .ok ((cnames.zip toks).foldl
                (fun cat p => alistSet cat p.1 p.2) [], s5)

/-- Per-class section decoder following claim C5's words instead of the
code: each class's processing skips its own 8-byte separator, then the
4-byte time-variable name, reads the tokens, and skips a trailing 8-byte
separator (so consecutive classes are separated by 16 bytes, not 8). -/
def readVarTokensClaim (counts : List Int) (s : BStream) :
    Except Err (List (List (List Nat)) × BStream) :=
  match counts with
  | [] => .ok ([], s)
  | c :: rest =>
    let s1 := (s.drop 8).drop 4
    match readBytes (c.toNat * 4) s1 with
    | .error e => .error e
    | .ok (buf, s2) =>
      let s3 := s2.drop 8
      match readVarTokensClaim rest s3 with
      | .error e => .error e
      | .ok (ts, s4) => .ok (chunk4 buf :: ts, s4)

/-- Catalog decoder following claim C5's words: identical to `readVarnames`
up to the count section, then `readVarTokensClaim` (no shared separator
between consecutive classes). -/
def readVarnamesClaim (numClasses : Nat) (s : BStream) :
    Except Err (Catalog × BStream) :=
  let s0 := s.drop 8
  match readClassnames numClasses s0 with
  | .error e => .error e
  | .ok (cnames, s1) =>
    let s2 := s1.drop 8
    match readBytes (numClasses * 4) s2 with
    | .error e => .error e
    | .ok (cb, s3) =>
      let counts := (chunk4 cb).map (fun w => toInt32 (beWord w))
      if counts.any (· < 0) then .error .badHeader
      else
        match readVarTokensClaim counts s3 with
        | .error e => .error e
        | .ok (toks, s5) =>
          .ok ((cnames.zip toks).foldl
                (fun cat p => alistSet cat p.1 p.2) [], s5)

/-! Record-stream decoder (`nex::load`'s loop, `read_vars`). -/

/-- The sentinel class-name token terminating the record stream. -/
def stopWord : List Nat := strBytes "STOP    "

/-- `read_vars`: bulk-read one flat value array (one big-endian word per
variable code of the class), and emit one sample per code in catalog order,
all sharing the block's timestep, time, max-perfs and the class/instance
names.  Values keep the byte-swapped word's bit pattern. -/
def readVars (vars : List (List Nat)) (ts : Int) (tb : Nat) (mp : Int)
    (cname iname : List Nat) (s : BStream) :
    Except Err (List NexusData × BStream) :=
  match readBytes (vars.length * 4) s with
  | .error e => .error e
  | .ok (vb, s1) =>
    let ws := (chunk4 vb).map beWord
    .ok ((vars.zip ws).map (fun p => ⟨ts, tb, mp, cname, iname, p.1, p.2⟩), s1)

/-- The per-item loop of a record block: `k` times, skip an 8-byte
separator, read the 8-byte instance name, skip 64 bytes, and read the value
array with `readVars`. -/
def readItems (k : Nat) (vars : List (List Nat)) (ts : Int) (tb : Nat)
    (mp : Int) (cname : List Nat) (s : BStream) :
    Except Err (List NexusData × BStream) :=
  match k with
  | 0 => .ok ([], s)
  | k + 1 =>
    let s1 := s.drop 8
    match readBytes 8 s1 with
    | .error e => .error e
    | .ok (iname, s2) =>
      let s3 := s2.drop 64
      match readVars vars ts tb mp cname iname s3 with
      | .error e => .error e
      | .ok (ds, s4) =>
        match readItems k vars ts tb mp cname s4 with
        | .error e => .error e
        | .ok (ds2, s5) => .ok (ds ++ ds2, s5)

/-- The record-stream loop, with explicit fuel so that the definition
computes by kernel reduction.  Each iteration reads the 8-byte class name
(the sentinel terminates successfully), skips an 8-byte separator, reads
five 32-bit words bit-reinterpreted as floats (timestep, elapsed time, item
count, an unused word, max-perfs; the integer ones truncated from the float
value), looks the class up in the catalog — `operator[]` yields the empty
code list for an unknown class — runs the item loop, skips a trailing
8-byte separator and repeats.  Every successful iteration consumes at least
36 bytes, so fuel `s.length + 1` never runs out (`loadLoopF_congr`); the
fuel-exhaustion branch returns the error the C++ stream would eventually
produce. -/
def loadLoopF (fuel : Nat) (cat : Catalog) (s : BStream) :
    Except Err (List NexusData) :=
  match fuel with
  | 0 => .error .unexpectedEof
  | fuel + 1 =>
    match readBytes 8 s with
    | .error e => .error e
    | .ok (cname, s1) =>
      if cname = stopWord then .ok []
      else
        let s2 := s1.drop 8
        match readBytes 20 s2 with
        | .error e => .error e
        | .ok (wb, s3) =>
          let ws := (chunk4 wb).map beWord
          let ts := fl32TruncToInt (ws.getD 0 0)
          let tb := ws.getD 1 0
          let ni := fl32TruncToInt (ws.getD 2 0)
          let mp := fl32TruncToInt (ws.getD 4 0)
          let vars := (alistFind cat cname).getD []
          match readItems ni.toNat vars ts tb mp cname s3 with
          | .error e => .error e
          | .ok (ds, s4) =>
            match loadLoopF fuel cat (s4.drop 8) with
            | .error e => .error e
            | .ok rest => .ok (ds ++ rest)

/-- The record-stream loop at sufficient fuel. -/
def loadLoop (cat : Catalog) (s : BStream) : Except Err (List NexusData) :=
  loadLoopF (s.length + 1) cat s

/-- `nex::load`: header, then catalog (the class count comes from the
header), then the record-stream loop. -/
def load (s : BStream) : Except Err NexusPlot :=
  match readHeader s with
  | .error e => .error e
  | .ok (h, s1) =>
    match readVarnames h.num_classes.toNat s1 with
    | .error e => .error e
    | .ok (cat, s2) =>
      match loadLoop cat s2 with
      | .error e => .error e
      | .ok ds => .ok ⟨h, ds⟩

/-! Summary converter (`field_smspec`, `nex::ecl_summary`) and the small
helpers of the missing `nexus/util.hpp` it uses (`is::classname`,
`is::instancename`, `is::varname`, `cmp::timestep`, `unique`, `varnames`),
modelled from the spec and from their call sites. -/

/-- Insertion sort by a strict-order comparator.  `std::sort` guarantees a
sorted permutation but leaves the relative order of equivalent elements
unspecified; this model is one such sort (it happens to be stable).  No
theorem below about `std::sort` call sites depends on the order of
equivalent elements. -/
def isortInsert (lt : α → α → Bool) (a : α) : List α → List α
  | [] => [a]
  | b :: bs => if lt a b then a :: b :: bs else b :: isortInsert lt a bs

/-- Insertion sort (see `isortInsert`). -/
def isortBy (lt : α → α → Bool) : List α → List α
  | [] => []
  | a :: as => isortInsert lt a (isortBy lt as)

/-- Tail of `dedupAdj`: drop elements equal to the previous kept one. -/
def dedupStep (eq : α → α → Bool) (prev : α) : List α → List α
  | [] => []
  | b :: bs => if eq prev b then dedupStep eq prev bs else b :: dedupStep eq b bs

/-- Remove adjacent duplicates (`std::unique` on a sorted range). -/
def dedupAdj (eq : α → α → Bool) : List α → List α
  | [] => []
  | a :: rest => a :: dedupStep eq a rest

/-- Lexicographic strict order on byte lists (`std::string operator<`). -/
def lexLt : List Nat → List Nat → Bool
  | [], [] => false
  | [], _ :: _ => true
  | _ :: _, [] => false
  | a :: as, b :: bs => if a < b then true else if b < a then false else lexLt as bs

/-- Modelled from the spec: `nex::is::classname(s)` — the sample's 8-byte
class-name token equals `s` space-padded to width 8 (fixed-width tokens are
compared as trimmed strings). -/
def isClassname (s : String) (d : NexusData) : Bool := d.classname = padBytes 8 s

/-- Modelled from the spec: `nex::is::instancename(s)` — the 8-byte
instance-name token equals `s` space-padded to width 8. -/
def isInstancename (s : String) (d : NexusData) : Bool :=
  d.instancename = padBytes 8 s

/-- Modelled from the spec: `nex::is::varname(v)` — the 4-byte variable-code
token equals `v` space-padded to width 4 (used with the trimmed codes of
`fieldVarnames`, so `v.length ≤ 4`). -/
def isVarname (v : List Nat) (d : NexusData) : Bool :=
  d.varname = v ++ List.replicate (4 - v.length) 32

/-- Modelled from the spec: the samples of class FIELD and instance NETWORK,
sorted by timestep (`copy_if` with the two filters, then `std::sort` with
`cmp::timestep`, comparison by the timestep field). -/
def fieldSamples (plt : NexusPlot) : List NexusData :=
  isortBy (fun a b => decide (a.timestep < b.timestep))
    (plt.data.filter (fun d => isClassname "FIELD" d && isInstancename "NETWORK" d))

/-- Modelled from the spec: `nex::varnames(plt, "FIELD")` — the distinct
trimmed variable codes occurring among samples of class FIELD, here in
sorted order (sort plus unique). -/
def fieldVarnames (plt : NexusPlot) : List (List Nat) :=
  dedupAdj (fun a b => a = b)
    (isortBy lexLt
      ((plt.data.filter (isClassname "FIELD")).map (fun d => trimTok d.varname)))

/-- The fixed keyword translation table `kw_nex2ecl` of `field_smspec`. -/
def kwNex2Ecl : List (List Nat × List Nat) :=
  [(strBytes "QOP", strBytes "FOPR"), (strBytes "QWP", strBytes "FWPR"),
   (strBytes "QGP", strBytes "FGPR"), (strBytes "GOR", strBytes "FGOR"),
   (strBytes "WCUT", strBytes "FWCT"), (strBytes "COP", strBytes "FOPT"),
   (strBytes "CWP", strBytes "FWPT"), (strBytes "CGP", strBytes "FGPT"),
   (strBytes "QWI", strBytes "FWIR"), (strBytes "QGI", strBytes "FGIR"),
   (strBytes "CWI", strBytes "FWIT"), (strBytes "CGI", strBytes "FGIT"),
   (strBytes "QPP", strBytes "FCPR"), (strBytes "CPP", strBytes "FCPC")]

/-- An smspec node created by `ecl_sum_add_var`: output keyword and unit
string (the external writer object is identified by what the code passes to
it). -/
structure EclVar where
  kw : List Nat
  unit : List Nat
deriving DecidableEq

/-- One entry of the `eclvar` vector of `field_smspec`: node, value bit
pattern, and the value's position in its variable code's filtered sorted
sample list. -/
structure EclNode where
  node : EclVar
  value : Nat
  timestepIndex : Nat
deriving DecidableEq

/-- Result of `field_smspec`: the nodes created (in creation order), the
value entries, and the warning diagnostics emitted for unmapped variable
codes (recorded by the code they name). -/
structure FieldSmspec where
  vars : List EclVar
  nodes : List EclNode
  warns : List (List Nat)
deriving DecidableEq

/-- Placeholder sample for in-range `getD` indexing. -/
def dfltData : NexusData := ⟨0, 0, 0, [], [], [], 0⟩

/-- The smspec node `ecl_sum_add_var` creates for a mapped variable code:
its ecl keyword and the unit string resolved through the unit system. -/
def mkVarOf (plt : NexusPlot) (v : List Nat) : EclVar :=
  ⟨(alistFind kwNex2Ecl v).getD [], unitStrVar plt.header.unit_system v⟩

/-- The value entries contributed by one mapped variable code `v`: its node,
and for each position `i` of the filtered sorted samples carrying `v`, the
`i`-th value with timestep index `i`. -/
def entriesOf (plt : NexusPlot) (v : List Nat) : List EclNode :=
  (List.range ((fieldSamples plt).filter (isVarname v)).length).map
    (fun i => ⟨mkVarOf plt v,
      (((fieldSamples plt).filter (isVarname v)).getD i dfltData).value, i⟩)

/-- `field_smspec`: filter to FIELD/NETWORK, sort by timestep, then for each
FIELD variable code in order: if the keyword table maps it, create a node
(with the unit resolved through the unit system) and append one entry per
value; otherwise emit a warning and skip the code. -/
def fieldSmspec (plt : NexusPlot) : FieldSmspec :=
  (fieldVarnames plt).foldl
    (fun acc v =>
      match alistFind kwNex2Ecl v with
      | some _ =>
        { acc with vars := acc.vars ++ [mkVarOf plt v],
                   nodes := acc.nodes ++ entriesOf plt v }
      | none => { acc with warns := acc.warns ++ [v] })
    ⟨[], [], []⟩

/-- Modelled from the spec: `unique(plt, get::timestep)` — the distinct
timestep indices across all samples, sorted (the spec's time axis is
"ordered by timestep"). -/
def uniqueTimesteps (plt : NexusPlot) : List Int :=
  dedupAdj (fun a b => decide (a = b))
    (isortBy (fun a b => decide (a < b)) (plt.data.map (·.timestep)))

/-- Modelled from the spec: `unique(plt, get::time)` — the distinct elapsed
times across all samples (distinct as float values), sorted numerically;
elements are kept as bit patterns. -/
def uniqueTimes (plt : NexusPlot) : List Nat :=
  dedupAdj fl32Eq (isortBy fl32Lt (plt.data.map (·.time)))

/-- What `nex::ecl_summary` hands to the external summary writer: the start
date and grid extents from the header, the nodes added, one timestep record
per distinct timestep index (1-indexed report step, elapsed time taken from
the distinct-times list; the writer receives it multiplied by 86400), and
the node/value assignments. -/
structure EclSum where
  day : Int
  month : Int
  year : Int
  nx : Int
  ny : Int
  nz : Int
  vars : List EclVar
  tsteps : List (Nat × Nat)
  assigns : List (Nat × EclVar × Nat)
deriving DecidableEq

/-- `nex::ecl_summary`: build the nodes with `field_smspec`, create one
timestep record per distinct timestep index taking the `i`-th distinct
elapsed time, then write each node's value into the record at its
timestep index.  The two `std::vector::operator[]` accesses are undefined
behaviour when out of range, modelled as the `outOfBounds` error. -/
def eclSummary (plt : NexusPlot) : Except Err EclSum :=
  let fs := fieldSmspec plt
  let k := (uniqueTimesteps plt).length
  let times := uniqueTimes plt
  if k ≤ times.length then
    if fs.nodes.all (fun n => n.timestepIndex < k) then
      .ok ⟨plt.header.day, plt.header.month, plt.header.year,
           plt.header.nx, plt.header.ny, plt.header.nz,
           fs.vars,
           (List.range k).map (fun i => (i + 1, times.getD i 0)),
           fs.nodes.map (fun n => (n.timestepIndex, n.node, n.value))⟩
    else .error .outOfBounds
  else .error .outOfBounds

/-- The (timestep-index, value) series recorded for one output keyword. -/
def seriesFor (s : EclSum) (kw : String) : List (Nat × Nat) :=
  s.assigns.filterMap
    (fun a => if a.2.1.kw = strBytes kw then some (a.1, a.2.2) else none)

/-- The FIELD variable codes the keyword table maps. -/
def mappedFieldVars (plt : NexusPlot) : List (List Nat) :=
  (fieldVarnames plt).filter (fun v => (alistFind kwNex2Ecl v).isSome)

/-- The in-bounds precondition of claim C10: every mapped FIELD/NETWORK
variable code has at most as many samples as there are distinct timestep
indices, and there are at least as many distinct elapsed times as distinct
timestep indices. -/
abbrev c10Pre (plt : NexusPlot) : Prop :=
  (∀ v ∈ mappedFieldVars plt,
      ((fieldSamples plt).filter
        (isVarname v)).length
        ≤ (uniqueTimesteps plt).length)
  ∧ (uniqueTimesteps plt).length ≤ (uniqueTimes plt).length

/-- Big-endian byte encoding of a 32-bit word (used to build concrete test
streams). -/
def beIntBytes (n : Nat) : List Nat :=
  [n / 2 ^ 24 % 256, n / 2 ^ 16 % 256, n / 2 ^ 8 % 256, n % 256]

/-- One item of a record block, as laid out on the wire: an 8-byte
separator, the 8-byte instance name, 64 unused bytes, then the flat value
array (4 bytes per variable code of the block's class). -/
structure BlockItem where
  pre : List Nat
  iname : List Nat
  pad : List Nat
  vals : List Nat
deriving DecidableEq

/-- Well-formedness of a block item for a class with `n` variable codes. -/
abbrev itemWf (n : Nat) (it : BlockItem) : Prop :=
  it.pre.length = 8 ∧ it.iname.length = 8 ∧ it.pad.length = 64 ∧
    it.vals.length = 4 * n

/-- The wire bytes of one block item. -/
def itemBytes (it : BlockItem) : List Nat :=
  it.pre ++ it.iname ++ it.pad ++ it.vals

/-- The samples one block item contributes: one per variable code of the
class, in catalog order, pairing the codes with the byte-swapped value
words, all sharing the block's timestep, time and max-perfs and the item's
instance name. -/
def itemSamples (vars : List (List Nat)) (ts : Int) (tb : Nat) (mp : Int)
    (cname : List Nat) (it : BlockItem) : List NexusData :=
  (vars.zip ((chunk4 it.vals).map beWord)).map
    (fun p => ⟨ts, tb, mp, cname, it.iname, p.1, p.2⟩)

/-- The wire bytes of one record block: 8-byte class name, 8-byte
separator, five 32-bit header words, the items, and the trailing 8-byte
separator. -/
def blockBytes (cname sep wb : List Nat) (items : List BlockItem)
    (trail : List Nat) : List Nat :=
  cname ++ sep ++ wb ++ items.flatMap itemBytes ++ trail

/-! Basic lemmas about the byte-stream primitives. -/

theorem readBytes_exact {n : Nat} {a : List Nat} (h : a.length = n)
    (b : List Nat) : readBytes n (a ++ b) = .ok (a, b) := by
  unfold readBytes
  rw [if_pos (by simp [← h])]
  subst h
  rw [List.take_left, List.drop_left]

theorem readBytes_error {n : Nat} {s : BStream} {e : Err}
    (h : readBytes n s = .error e) : e = .unexpectedEof := by
  unfold readBytes at h
  split at h
  · exact absurd h (by simp)
  · exact (Except.error.injEq _ _).mp h |>.symm

theorem readBytes_ok_len {n : Nat} {s : BStream} {b : List Nat} {s' : BStream}
    (h : readBytes n s = .ok (b, s')) :
    n ≤ s.length ∧ s' = s.drop n ∧ b = s.take n := by
  unfold readBytes at h
  split at h
  · next hn =>
    obtain ⟨h1, h2⟩ := Prod.mk.injEq .. ▸ (Except.ok.injEq _ _).mp h
    exact ⟨hn, h2.symm, h1.symm⟩
  · exact absurd h (by simp)

theorem drop_of_len {a : List Nat} {n : Nat} (h : a.length = n)
    (b : List Nat) : (a ++ b).drop n = b := by
  subst h; exact List.drop_left a b

theorem readVars_error {vars : List (List Nat)} {ts : Int} {tb : Nat}
    {mp : Int} {cname iname : List Nat} {s : BStream} {e : Err}
    (h : readVars vars ts tb mp cname iname s = .error e) :
    e = .unexpectedEof := by
  cases hr : readBytes (vars.length * 4) s with
  | error e' =>
    simp only [readVars, hr] at h
    cases h; exact readBytes_error hr
  | ok p =>
    simp only [readVars, hr] at h
    exact Except.noConfusion h

theorem readVars_ok_len {vars : List (List Nat)} {ts : Int} {tb : Nat}
    {mp : Int} {cname iname : List Nat} {s : BStream} {ds : List NexusData}
    {s' : BStream} (h : readVars vars ts tb mp cname iname s = .ok (ds, s')) :
    s'.length ≤ s.length := by
  cases hr : readBytes (vars.length * 4) s with
  | error e' =>
    simp only [readVars, hr] at h
    exact Except.noConfusion h
  | ok p =>
    simp only [readVars, hr, Except.ok.injEq, Prod.mk.injEq] at h
    obtain ⟨-, h2, -⟩ := readBytes_ok_len hr
    rw [← h.2, h2]
    simp

theorem readItems_error {k : Nat} {vars : List (List Nat)} {ts : Int}
    {tb : Nat} {mp : Int} {cname : List Nat} {s : BStream} {e : Err}
    (h : readItems k vars ts tb mp cname s = .error e) :
    e = .unexpectedEof := by
  induction k generalizing s e with
  | zero => cases h
  | succ k ih =>
    cases h8 : readBytes 8 (s.drop 8) with
    | error e' =>
      simp only [readItems, h8] at h
      cases h; exact readBytes_error h8
    | ok p =>
      cases hv : readVars vars ts tb mp cname p.1 (p.2.drop 64) with
      | error e' =>
        simp only [readItems, h8, hv] at h
        cases h; exact readVars_error hv
      | ok q =>
        cases hi : readItems k vars ts tb mp cname q.2 with
        | error e' =>
          simp only [readItems, h8, hv, hi] at h
          cases h; exact ih hi
        | ok r =>
          simp only [readItems, h8, hv, hi] at h
          exact Except.noConfusion h

theorem readItems_ok_len {k : Nat} {vars : List (List Nat)} {ts : Int}
    {tb : Nat} {mp : Int} {cname : List Nat} {s : BStream}
    {ds : List NexusData} {s' : BStream}
    (h : readItems k vars ts tb mp cname s = .ok (ds, s')) :
    s'.length ≤ s.length := by
  induction k generalizing s ds s' with
  | zero =>
    simp only [readItems, Except.ok.injEq, Prod.mk.injEq] at h
    rw [← h.2]
  | succ k ih =>
    cases h8 : readBytes 8 (s.drop 8) with
    | error e' =>
      simp only [readItems, h8] at h
      exact Except.noConfusion h
    | ok p =>
      cases hv : readVars vars ts tb mp cname p.1 (p.2.drop 64) with
      | error e' =>
        simp only [readItems, h8, hv] at h
        exact Except.noConfusion h
      | ok q =>
        cases hi : readItems k vars ts tb mp cname q.2 with
        | error e' =>
          simp only [readItems, h8, hv, hi] at h
          exact Except.noConfusion h
        | ok r =>
          simp only [readItems, h8, hv, hi, Except.ok.injEq, Prod.mk.injEq] at h
          rw [← h.2]
          calc r.2.length ≤ q.2.length := ih hi
            _ ≤ (p.2.drop 64).length := readVars_ok_len hv
            _ ≤ p.2.length := by simp
            _ ≤ s.length := by
                obtain ⟨-, h2, -⟩ := readBytes_ok_len h8
                rw [h2]
                simp only [List.length_drop]
                omega

theorem readItems_exact {vars : List (List Nat)} {ts : Int} {tb : Nat}
    {mp : Int} {cname : List Nat} {items : List BlockItem} {rest : BStream}
    (hwf : ∀ it ∈ items, itemWf vars.length it) :
    readItems items.length vars ts tb mp cname
        (items.flatMap itemBytes ++ rest) =
      .ok (items.flatMap (itemSamples vars ts tb mp cname), rest) := by
  induction items with
  | nil => simp [readItems]
  | cons it its ih =>
    obtain ⟨h1, h2, h3, h4⟩ := hwf it (by simp)
    have hws : ∀ x ∈ its, itemWf vars.length x := fun x hx => hwf x (by simp [hx])
    have h4' : it.vals.length = vars.length * 4 := by omega
    simp only [List.flatMap_cons, itemBytes, List.append_assoc, List.length_cons]
    simp only [readItems, drop_of_len h1, readBytes_exact h2, drop_of_len h3]
    simp only [readVars, readBytes_exact h4']
    rw [ih hws]
    simp [itemSamples]

theorem loadLoopF_congr (f1 : Nat) : ∀ (f2 : Nat) (cat : Catalog)
    (s : BStream), s.length < f1 → s.length < f2 →
    loadLoopF f1 cat s = loadLoopF f2 cat s := by
  induction f1 with
  | zero => intro f2 cat s h1 h2; omega
  | succ f1 ih =>
    intro f2 cat s h1 h2
    cases f2 with
    | zero => omega
    | succ f2 =>
      cases h8 : readBytes 8 s with
      | error e => simp only [loadLoopF, h8]
      | ok p =>
        obtain ⟨hn8, hs8, -⟩ := readBytes_ok_len h8
        by_cases hstop : p.1 = stopWord
        · simp only [loadLoopF, h8]
          rw [if_pos hstop, if_pos hstop]
        · simp only [loadLoopF, h8]
          rw [if_neg hstop, if_neg hstop]
          cases h20 : readBytes 20 (p.2.drop 8) with
          | error e => simp only [h20]
          | ok q =>
            obtain ⟨hn20, hq, -⟩ := readBytes_ok_len h20
            simp only [h20]
            cases hI : readItems
                (fl32TruncToInt (((chunk4 q.1).map beWord).getD 2 0)).toNat
                ((alistFind cat p.1).getD [])
                (fl32TruncToInt (((chunk4 q.1).map beWord).getD 0 0))
                (((chunk4 q.1).map beWord).getD 1 0)
                (fl32TruncToInt (((chunk4 q.1).map beWord).getD 4 0))
                p.1 q.2 with
            | error e => simp only [hI]
            | ok r =>
              simp only [hI]
              have hr2 : r.2.length ≤ q.2.length := readItems_ok_len hI
              have hp2 : p.2.length = s.length - 8 := by rw [hs8]; simp
              have hq2 : q.2.length = p.2.length - 8 - 20 := by rw [hq]; simp; omega
              have hlt1 : (r.2.drop 8).length < f1 := by
                simp only [List.length_drop]
                omega
              have hlt2 : (r.2.drop 8).length < f2 := by
                simp only [List.length_drop]
                omega
              rw [ih f2 cat (r.2.drop 8) hlt1 hlt2]

theorem loadLoopF_ok_or_eof (f : Nat) : ∀ (cat : Catalog) (s : BStream),
    (∃ d, loadLoopF f cat s = .ok d) ∨
      loadLoopF f cat s = .error .unexpectedEof := by
  induction f with
  | zero => intro cat s; right; rfl
  | succ f ih =>
    intro cat s
    cases h8 : readBytes 8 s with
    | error e =>
      right
      simp only [loadLoopF, h8, readBytes_error h8]
    | ok p =>
      by_cases hstop : p.1 = stopWord
      · refine .inl ⟨[], ?_⟩
        simp only [loadLoopF, h8]
        rw [if_pos hstop]
      · cases h20 : readBytes 20 (p.2.drop 8) with
        | error e =>
          right
          simp only [loadLoopF, h8]
          rw [if_neg hstop]
          simp only [h20, readBytes_error h20]
        | ok q =>
          cases hI : readItems
              (fl32TruncToInt (((chunk4 q.1).map beWord).getD 2 0)).toNat
              ((alistFind cat p.1).getD [])
              (fl32TruncToInt (((chunk4 q.1).map beWord).getD 0 0))
              (((chunk4 q.1).map beWord).getD 1 0)
              (fl32TruncToInt (((chunk4 q.1).map beWord).getD 4 0))
              p.1 q.2 with
          | error e =>
            right
            simp only [loadLoopF, h8]
            rw [if_neg hstop]
            simp only [h20, hI, readItems_error hI]
          | ok r =>
            rcases ih cat (r.2.drop 8) with ⟨d, hd⟩ | hd
            · refine .inl ⟨r.1 ++ d, ?_⟩
              simp only [loadLoopF, h8]
              rw [if_neg hstop]
              simp only [h20, hI, hd]
            · right
              simp only [loadLoopF, h8]
              rw [if_neg hstop]
              simp only [h20, hI, hd]

theorem loadLoopF_block (f : Nat) (cat : Catalog)
    (cname sep wb trail : List Nat) (items : List BlockItem) (rest : BStream)
    (hc : cname.length = 8) (hsep : sep.length = 8) (hwb : wb.length = 20)
    (htrail : trail.length = 8) (hstop : cname ≠ stopWord)
    (hwf : ∀ it ∈ items, itemWf ((alistFind cat cname).getD []).length it)
    (hcount : items.length =
      (fl32TruncToInt (((chunk4 wb).map beWord).getD 2 0)).toNat) :
    loadLoopF (f + 1) cat (blockBytes cname sep wb items trail ++ rest) =
      (loadLoopF f cat rest).map
        (fun ds =>
          items.flatMap
            (itemSamples ((alistFind cat cname).getD [])
              (fl32TruncToInt (((chunk4 wb).map beWord).getD 0 0))
              (((chunk4 wb).map beWord).getD 1 0)
              (fl32TruncToInt (((chunk4 wb).map beWord).getD 4 0)) cname) ++ ds) := by
  simp only [blockBytes, List.append_assoc]
  simp only [loadLoopF, readBytes_exact hc]
  rw [if_neg hstop]
  simp only [drop_of_len hsep, readBytes_exact hwb, ← hcount,
    readItems_exact hwf, drop_of_len htrail]
  cases hr : loadLoopF f cat rest <;> rfl

theorem loadLoop_block (cat : Catalog) (cname sep wb trail : List Nat)
    (items : List BlockItem) (rest : BStream)
    (hc : cname.length = 8) (hsep : sep.length = 8) (hwb : wb.length = 20)
    (htrail : trail.length = 8) (hstop : cname ≠ stopWord)
    (hwf : ∀ it ∈ items, itemWf ((alistFind cat cname).getD []).length it)
    (hcount : items.length =
      (fl32TruncToInt (((chunk4 wb).map beWord).getD 2 0)).toNat) :
    loadLoop cat (blockBytes cname sep wb items trail ++ rest) =
      (loadLoop cat rest).map
        (fun ds =>
          items.flatMap
            (itemSamples ((alistFind cat cname).getD [])
              (fl32TruncToInt (((chunk4 wb).map beWord).getD 0 0))
              (((chunk4 wb).map beWord).getD 1 0)
              (fl32TruncToInt (((chunk4 wb).map beWord).getD 4 0)) cname) ++ ds) := by
  have hA : rest.length < (blockBytes cname sep wb items trail ++ rest).length := by
    simp only [blockBytes, List.length_append]
    omega
  unfold loadLoop
  rw [loadLoopF_block ((blockBytes cname sep wb items trail ++ rest).length)
    cat cname sep wb trail items rest hc hsep hwb htrail hstop hwf hcount]
  rw [loadLoopF_congr ((blockBytes cname sep wb items trail ++ rest).length)
    (rest.length + 1) cat rest hA (by omega)]

theorem flatMap_const_nil (l : List α) :
    l.flatMap (fun _ => ([] : List β)) = [] := by
  induction l <;> simp_all

theorem flatMap_itemSamples_nil (l : List BlockItem) (ts : Int) (tb : Nat)
    (mp : Int) (cname : List Nat) :
    l.flatMap (itemSamples [] ts tb mp cname) = [] := by
  induction l with
  | nil => rfl
  | cons a l ih => simp [itemSamples, ih]

/-! Concrete streams used by witnesses and counterexamples. -/

/-- A well-formed header section: 4-byte prefix, type tag, 24 skipped bytes,
metric-bars unit tag, 794 skipped bytes, then the 8 integers
(1 class, start date 1/1/1980, zero grid extents). -/
def wfHeaderBytes : BStream :=
  List.replicate 4 0 ++ strBytes "PLOT  BIN   " ++ List.replicate 24 0 ++
  strBytes "METBAR" ++ List.replicate 794 0 ++
  beIntBytes 1 ++ beIntBytes 1 ++ beIntBytes 1 ++ beIntBytes 1980 ++
  beIntBytes 0 ++ beIntBytes 0 ++ beIntBytes 0 ++ beIntBytes 0

/-- The header `wfHeaderBytes` decodes to. -/
def wfHeader : NexusHeader := ⟨.metric_bars, 1, 1, 1, 1980, 0, 0, 0, 0⟩

/-- A catalog section declaring one class FIELD with codes QOP and WCUT. -/
def wfCatalogBytes : BStream :=
  List.replicate 8 0 ++ strBytes "FIELD   " ++ List.replicate 8 0 ++
  beIntBytes 2 ++ List.replicate 8 0 ++ List.replicate 4 0 ++
  strBytes "QOP " ++ strBytes "WCUT" ++ List.replicate 8 0

/-- The catalog `wfCatalogBytes` decodes to. -/
def wfCatalog : Catalog :=
  [(strBytes "FIELD   ", [strBytes "QOP ", strBytes "WCUT"])]

/-- A record-block item: instance NETWORK with values 12.5f and 0.3f
(bit patterns 0x41480000 and 0x3E99999A). -/
def wfItem : BlockItem :=
  ⟨List.replicate 8 0, strBytes "NETWORK ", List.replicate 64 0,
    beIntBytes 0x41480000 ++ beIntBytes 0x3E99999A⟩

/-- Block header words: timestep 1.0f, time 0.5f, one item, unused 0,
max-perfs 2.0f. -/
def wfBlockWords : List Nat :=
  beIntBytes 0x3F800000 ++ beIntBytes 0x3F000000 ++ beIntBytes 0x3F800000 ++
  beIntBytes 0 ++ beIntBytes 0x40000000

/-- C1.  A record block whose class name is in the catalog with codes
v₁…vₙ is decoded by skipping an 8-byte separator, reading five 32-bit words
byte-swapped and bit-reinterpreted as floats (timestep index and item count
truncated from the float value, the fourth word unused), and then, for each
of the `item count` items, skipping an 8-byte separator, reading the 8-byte
instance name, skipping 64 bytes, reading n big-endian words byte-swapped
and bit-reinterpreted as floats, and appending exactly n samples in catalog
order v₁…vₙ, all sharing the block's timestep, elapsed time, max-perfs,
class name and that instance name; afterwards the trailing 8-byte separator
is skipped and the loop continues on the rest of the stream. -/
theorem c1_record_block_decode (cat : Catalog) (cname sep wb trail : List Nat)
    (items : List BlockItem) (vars : List (List Nat)) (rest : BStream)
    (hc : cname.length = 8) (hsep : sep.length = 8) (hwb : wb.length = 20)
    (htrail : trail.length = 8) (hstop : cname ≠ stopWord)
    (hfind : alistFind cat cname = some vars)
    (hwf : ∀ it ∈ items, itemWf vars.length it)
    (hcount : items.length =
      (fl32TruncToInt (((chunk4 wb).map beWord).getD 2 0)).toNat) :
    loadLoop cat (blockBytes cname sep wb items trail ++ rest) =
      (loadLoop cat rest).map
        (fun ds =>
          items.flatMap
            (itemSamples vars
              (fl32TruncToInt (((chunk4 wb).map beWord).getD 0 0))
              (((chunk4 wb).map beWord).getD 1 0)
              (fl32TruncToInt (((chunk4 wb).map beWord).getD 4 0)) cname) ++ ds) := by
  have h := loadLoop_block cat cname sep wb trail items rest hc hsep hwb htrail
    hstop (by simpa [hfind] using hwf) hcount
  rw [hfind] at h
  simpa using h

set_option maxRecDepth 100000 in
/-- Witness for C1 at a concrete block: class FIELD with catalog codes
QOP, WCUT, one NETWORK item with values 12.5f and 0.3f, timestep word 1.0f,
time word 0.5f, max-perfs word 2.0f, followed by the sentinel. -/
theorem c1_record_block_decode_witness :
    loadLoop wfCatalog
        (blockBytes (strBytes "FIELD   ") (List.replicate 8 0) wfBlockWords
          [wfItem] (List.replicate 8 0) ++ stopWord) =
      .ok [⟨1, 0x3F000000, 2, strBytes "FIELD   ", strBytes "NETWORK ",
              strBytes "QOP ", 0x41480000⟩,
           ⟨1, 0x3F000000, 2, strBytes "FIELD   ", strBytes "NETWORK ",
              strBytes "WCUT", 0x3E99999A⟩] := by
  rw [c1_record_block_decode wfCatalog (strBytes "FIELD   ")
    (List.replicate 8 0) wfBlockWords (List.replicate 8 0) [wfItem]
    [strBytes "QOP ", strBytes "WCUT"] stopWord (by decide) (by decide)
    (by decide) (by decide) (by decide) (by decide) (by decide) (by decide)]
  decide

/-- C2.  (a) A stream that decodes past the header and the variable catalog
and whose next 8 bytes are the sentinel token decodes successfully to a plot
with zero samples.  (b) The record-stream loop either returns successfully
(which requires consuming a sentinel) or fails with `UnexpectedEndOfFile`;
in particular a stream truncated before a sentinel is reached fails with
`UnexpectedEndOfFile`, and the sentinel is the only non-error terminal
state. -/
theorem c2_sentinel_termination :
    (∀ (s s1 s2 : BStream) (h : NexusHeader) (cat : Catalog),
        readHeader s = .ok (h, s1) →
        readVarnames h.num_classes.toNat s1 = .ok (cat, s2) →
        s2.take 8 = stopWord →
        load s = .ok ⟨h, []⟩)
    ∧ (∀ (cat : Catalog) (s : BStream),
        (∃ d, loadLoop cat s = .ok d) ∨
          loadLoop cat s = .error .unexpectedEof) := by
  constructor
  · intro s s1 s2 h cat hh hv hstop
    have hlen : 8 ≤ s2.length := by
      have hl := congrArg List.length hstop
      simp only [List.length_take] at hl
      have : stopWord.length = 8 := by decide
      omega
    have h8 : readBytes 8 s2 = .ok (stopWord, s2.drop 8) := by
      unfold readBytes
      rw [if_pos hlen, hstop]
    simp only [load, hh, hv, loadLoop, loadLoopF, h8]
    simp
  · intro cat s
    exact loadLoopF_ok_or_eof (s.length + 1) cat s

set_option maxRecDepth 100000 in
/-- Witness for C2: a concrete well-formed header and catalog followed
immediately by the sentinel decodes to a plot with zero samples. -/
theorem c2_sentinel_termination_witness :
    load (wfHeaderBytes ++ wfCatalogBytes ++ stopWord) = .ok ⟨wfHeader, []⟩ :=
  c2_sentinel_termination.1 (wfHeaderBytes ++ wfCatalogBytes ++ stopWord)
    (wfCatalogBytes ++ stopWord) stopWord wfHeader wfCatalog
    (by decide) (by decide) (by decide)

set_option maxRecDepth 100000 in
/-- Counterexample to C3 as stated.  The stream below decodes past a
catalog declaring only the class FIELD; its single record block carries the
class name BOGUS, which is not in the catalog, with an item count of zero;
claim C3 requires the decode to fail with a `BadHeader`-class error, but
`load` returns a plot (with zero samples): `std::map::operator[]` silently
treats the unknown class as having no variable codes. -/
theorem c3_unknown_class_counterexample :
    alistFind wfCatalog (strBytes "BOGUS   ") = none ∧
    readVarnames 1 ((wfHeaderBytes ++ wfCatalogBytes ++
        (strBytes "BOGUS   " ++ List.replicate 8 0 ++ List.replicate 20 0 ++
          List.replicate 8 0) ++ stopWord).drop 872) =
      .ok (wfCatalog,
        (strBytes "BOGUS   " ++ List.replicate 8 0 ++ List.replicate 20 0 ++
          List.replicate 8 0) ++ stopWord) ∧
    load (wfHeaderBytes ++ wfCatalogBytes ++
        (strBytes "BOGUS   " ++ List.replicate 8 0 ++ List.replicate 20 0 ++
          List.replicate 8 0) ++ stopWord) =
      .ok ⟨wfHeader, []⟩ := by
  refine ⟨by decide, by decide, by decide⟩

/-- C3 amended.  A record block whose class name is neither the sentinel
nor a class of the catalog is not an error: the class is treated as having
zero variable codes (`std::map::operator[]` default-inserts an empty
vector), each of its items is consumed with a zero-length value array, no
samples are appended, and the decode continues on the rest of the
stream. -/
theorem c3_unknown_class_skipped (cat : Catalog)
    (cname sep wb trail : List Nat) (items : List BlockItem) (rest : BStream)
    (hc : cname.length = 8) (hsep : sep.length = 8) (hwb : wb.length = 20)
    (htrail : trail.length = 8) (hstop : cname ≠ stopWord)
    (hfind : alistFind cat cname = none)
    (hwf : ∀ it ∈ items, itemWf 0 it)
    (hcount : items.length =
      (fl32TruncToInt (((chunk4 wb).map beWord).getD 2 0)).toNat) :
    loadLoop cat (blockBytes cname sep wb items trail ++ rest) =
      loadLoop cat rest := by
  rw [loadLoop_block cat cname sep wb trail items rest hc hsep hwb htrail
    hstop (by simpa [hfind] using hwf) hcount]
  rw [hfind]
  simp only [Option.getD_none, flatMap_itemSamples_nil, List.nil_append]
  cases loadLoop cat rest <;> rfl

/-- Witness for the amended C3: a concrete unknown-class block with zero
items is skipped and the following sentinel terminates the loop. -/
theorem c3_unknown_class_skipped_witness :
    loadLoop wfCatalog
        (blockBytes (strBytes "BOGUS   ") (List.replicate 8 0)
          (List.replicate 20 0) [] (List.replicate 8 0) ++ stopWord) =
      .ok [] := by
  rw [c3_unknown_class_skipped wfCatalog (strBytes "BOGUS   ")
    (List.replicate 8 0) (List.replicate 20 0) (List.replicate 8 0) []
    stopWord (by decide) (by decide) (by decide) (by decide) (by decide)
    (by decide) (by decide) (by decide)]
  decide

/-! Header-decoder positions on the raw stream, for stating C4: the type
tag occupies bytes 4–15, the unit tag bytes 40–45, and the eight integers
bytes 840–871. -/

/-- The 12-byte type-tag field of a stream. -/
def headerTag (s : BStream) : List Nat := (s.drop 4).take 12

/-- The 6-byte unit-system-tag field of a stream. -/
def headerUnitTag (s : BStream) : List Nat := (s.drop 40).take 6

/-- The eight trailing header integers of a stream, after byte-swap. -/
def headerInts (s : BStream) : List Int :=
  (chunk4 ((s.drop 840).take 32)).map (fun w => toInt32 (beWord w))

theorem readBytes_ok_of_le {n : Nat} {s : BStream} (h : n ≤ s.length) :
    readBytes n s = .ok (s.take n, s.drop n) := by
  unfold readBytes; rw [if_pos h]

theorem readBytes_err_of_lt {n : Nat} {s : BStream} (h : s.length < n) :
    readBytes n s = .error .unexpectedEof := by
  unfold readBytes; rw [if_neg (by omega)]

/-- C4 counterexample input: a header stream whose type tag is correct,
which is long enough, whose eight integers are all zero, but whose 6-byte
unit-system tag is not a recognized unit system. -/
def c4BadUnitBytes : BStream :=
  List.replicate 4 0 ++ strBytes "PLOT  BIN   " ++ List.replicate 24 0 ++
  strBytes "??????" ++ List.replicate 794 0 ++ List.replicate 32 0

set_option maxRecDepth 100000 in
/-- Counterexample to C4 as stated.  On `c4BadUnitBytes` the type tag
matches, the stream is long enough for all eight trailing integers, and
none of them is negative after byte-swap, so C4's final clause requires
`read_header` to return a Header; instead it fails with
`UnrecognizedUnitSystem`, because the unit-system tag read between the type
tag and the integers is not recognized. -/
theorem c4_header_counterexample :
    headerTag c4BadUnitBytes = tagBytes ∧
    872 ≤ c4BadUnitBytes.length ∧
    (headerInts c4BadUnitBytes).any (· < 0) = false ∧
    readHeader c4BadUnitBytes = .error .unrecognizedUnitSystem := by
  exact ⟨by decide, by decide, by decide, by decide⟩

/-- C4 amended.  The header decoder fails with `BadHeader` whenever the
12-byte type tag read after the 4-byte prefix differs from
"PLOT  BIN   " (including when the stream is exhausted before the
comparison completes); with the tag correct, it fails with
`UnexpectedEndOfFile` whenever the stream ends before the unit tag or —
with the unit tag recognized — before all 8 trailing integers; with an
unrecognized unit tag it fails with `UnrecognizedUnitSystem`; with the tag
correct, the unit recognized and the stream long enough, it fails with
`BadHeader` whenever any byte-swapped integer is negative and otherwise
returns a Header whose 8 integer fields are exactly those integers, all
non-negative. -/
theorem c4_header_validation :
    (∀ s : BStream, headerTag s ≠ tagBytes →
        readHeader s = .error .badHeader)
    ∧ (∀ s : BStream, headerTag s = tagBytes → s.length < 46 →
        readHeader s = .error .unexpectedEof)
    ∧ (∀ s : BStream, headerTag s = tagBytes → 46 ≤ s.length →
        unitTypeFromTag (headerUnitTag s) = none →
        readHeader s = .error .unrecognizedUnitSystem)
    ∧ (∀ (s : BStream) (u : UnitType), headerTag s = tagBytes →
        46 ≤ s.length → unitTypeFromTag (headerUnitTag s) = some u →
        s.length < 872 → readHeader s = .error .unexpectedEof)
    ∧ (∀ (s : BStream) (u : UnitType), headerTag s = tagBytes →
        unitTypeFromTag (headerUnitTag s) = some u → 872 ≤ s.length →
        (headerInts s).any (· < 0) = true →
        readHeader s = .error .badHeader)
    ∧ (∀ (s : BStream) (u : UnitType), headerTag s = tagBytes →
        unitTypeFromTag (headerUnitTag s) = some u → 872 ≤ s.length →
        (headerInts s).any (· < 0) = false →
        readHeader s =
          .ok (⟨u, (headerInts s).getD 0 0, (headerInts s).getD 1 0,
                (headerInts s).getD 2 0, (headerInts s).getD 3 0,
                (headerInts s).getD 4 0, (headerInts s).getD 5 0,
                (headerInts s).getD 6 0, (headerInts s).getD 7 0⟩,
               s.drop 872) ∧
          ∀ i ∈ headerInts s, 0 ≤ i) := by
  have hdrop : ∀ (s : BStream) (a b : Nat), (s.drop a).drop b = s.drop (a + b) := by
    intro s a b
    rw [List.drop_drop]
  have htag16 : ∀ s : BStream, headerTag s = tagBytes → 16 ≤ s.length := by
    intro s h
    have := congrArg List.length h
    simp only [headerTag, List.length_take, List.length_drop] at this
    have ht : tagBytes.length = 12 := by decide
    omega
  have hshape : ∀ s : BStream, headerTag s = tagBytes →
      readHeader s =
        (match readBytes 6 (s.drop 40) with
         | .error e => .error e
         | .ok (us, _) =>
           match unitTypeFromTag us with
           | none => .error .unrecognizedUnitSystem
           | some u =>
             match readBytes 32 (s.drop 840) with
             | .error e => .error e
             | .ok (ib, s5) =>
               let ints := (chunk4 ib).map (fun w => toInt32 (beWord w))
               if ints.any (· < 0) then .error .badHeader
               else
                 .ok (⟨u, ints.getD 0 0, ints.getD 1 0, ints.getD 2 0,
                       ints.getD 3 0, ints.getD 4 0, ints.getD 5 0,
                       ints.getD 6 0, ints.getD 7 0⟩, s5)) := by
    intro s htag
    have h12 : readBytes 12 (s.drop 4) = .ok ((s.drop 4).take 12, (s.drop 4).drop 12) :=
      readBytes_ok_of_le (by simp only [List.length_drop]; have := htag16 s htag; omega)
    simp only [readHeader, h12]
    rw [if_neg (by simp only [headerTag] at htag; simp [htag])]
    rw [hdrop s 4 12, hdrop s 16 24]
    cases h6 : readBytes 6 (s.drop 40) with
    | error e => rfl
    | ok p =>
      obtain ⟨hle, hp2, hp1⟩ := readBytes_ok_len h6
      obtain ⟨us, s3⟩ := p
      simp only at hp1 hp2
      subst hp2
      cases hu : unitTypeFromTag us with
      | none => simp only [hu]
      | some u =>
        simp only [hu, hdrop s 40 6, hdrop s 46 794]
  constructor
  · -- tag mismatch (or short tag read): bad_header
    intro s htag
    by_cases h16 : 16 ≤ s.length
    · have h12 : readBytes 12 (s.drop 4) = .ok ((s.drop 4).take 12, (s.drop 4).drop 12) :=
        readBytes_ok_of_le (by simp only [List.length_drop]; omega)
      simp only [readHeader, h12]
      rw [if_pos (by simpa only [headerTag] using htag)]
    · have h12 : readBytes 12 (s.drop 4) = .error .unexpectedEof :=
        readBytes_err_of_lt (by simp only [List.length_drop]; omega)
      simp only [readHeader, h12]
  refine ⟨?_, ?_, ?_, ?_, ?_⟩
  · -- short before the unit tag: eof
    intro s htag h46
    rw [hshape s htag]
    rw [readBytes_err_of_lt (by simp only [List.length_drop]; omega)]
  · -- unrecognized unit tag
    intro s htag h46 hnone
    rw [hshape s htag]
    simp only [readBytes_ok_of_le
      (show (6 : Nat) ≤ (s.drop 40).length by simp only [List.length_drop]; omega)]
    simp only [headerUnitTag] at hnone
    simp only [hnone]
  · -- short before the 8 integers: eof
    intro s u htag h46 hsome h872
    rw [hshape s htag]
    simp only [readBytes_ok_of_le
      (show (6 : Nat) ≤ (s.drop 40).length by simp only [List.length_drop]; omega)]
    simp only [headerUnitTag] at hsome
    simp only [hsome]
    rw [readBytes_err_of_lt (by simp only [List.length_drop]; omega)]
  · -- negative integer: bad_header
    intro s u htag hsome h872 hneg
    rw [hshape s htag]
    simp only [readBytes_ok_of_le
      (show (6 : Nat) ≤ (s.drop 40).length by simp only [List.length_drop]; omega)]
    simp only [headerUnitTag] at hsome
    simp only [hsome, readBytes_ok_of_le
      (show (32 : Nat) ≤ (s.drop 840).length by simp only [List.length_drop]; omega)]
    rw [if_pos (by simpa only [headerInts] using hneg)]
  · -- success: header with the eight non-negative integers
    intro s u htag hsome h872 hnonneg
    constructor
    · rw [hshape s htag]
      simp only [readBytes_ok_of_le
        (show (6 : Nat) ≤ (s.drop 40).length by simp only [List.length_drop]; omega)]
      simp only [headerUnitTag] at hsome
      simp only [hsome, readBytes_ok_of_le
        (show (32 : Nat) ≤ (s.drop 840).length by simp only [List.length_drop]; omega)]
      rw [if_neg (by simp only [headerInts] at hnonneg; simp [hnonneg])]
      rw [hdrop s 840 32]
      rfl
    · intro i hi
      by_contra hlt
      have hx : (headerInts s).any (· < 0) = true := by
        simp only [List.any_eq_true]
        exact ⟨i, hi, by simp only [decide_eq_true_eq]; omega⟩
      rw [hx] at hnonneg
      cases hnonneg

set_option maxRecDepth 100000 in
/-- Witness for the amended C4 at the concrete well-formed header stream:
tag correct, metric-bars unit recognized, all integers non-negative, and
the decoded header is returned. -/
theorem c4_header_validation_witness :
    readHeader wfHeaderBytes =
      .ok (⟨.metric_bars, (headerInts wfHeaderBytes).getD 0 0,
            (headerInts wfHeaderBytes).getD 1 0,
            (headerInts wfHeaderBytes).getD 2 0,
            (headerInts wfHeaderBytes).getD 3 0,
            (headerInts wfHeaderBytes).getD 4 0,
            (headerInts wfHeaderBytes).getD 5 0,
            (headerInts wfHeaderBytes).getD 6 0,
            (headerInts wfHeaderBytes).getD 7 0⟩,
           wfHeaderBytes.drop 872) ∧
      ∀ i ∈ headerInts wfHeaderBytes, 0 ≤ i :=
  c4_header_validation.2.2.2.2.2 wfHeaderBytes .metric_bars
    (by decide) (by decide) (by decide) (by decide)

/-! C5: layout of the variable-catalog section. -/

/-- One class's slice of the per-class part of the catalog section. -/
structure ClassSec where
  name : List Nat
  timePad : List Nat
  toks : List (List Nat)
  sep : List Nat
deriving DecidableEq

/-- Well-formedness of a class section: 8-byte name, 4-byte time-variable
placeholder, 4-byte variable-code tokens, 8-byte trailing separator, and a
count representable as a non-negative `int32_t`. -/
abbrev classSecWf (c : ClassSec) : Prop :=
  c.name.length = 8 ∧ c.timePad.length = 4 ∧ (∀ t ∈ c.toks, t.length = 4) ∧
    c.sep.length = 8 ∧ c.toks.length < 2 ^ 31

/-- The catalog section as the code consumes it: an 8-byte separator, the
class names, an 8-byte separator, the per-class counts, one 8-byte
separator, then for each class its 4-byte placeholder, its token block and
its trailing 8-byte separator (consecutive classes share one separator). -/
def catalogStream (sep0 sep1 sep2 : List Nat) (cs : List ClassSec) : BStream :=
  sep0 ++ cs.flatMap (·.name) ++ sep1 ++
  cs.flatMap (fun c => beIntBytes c.toks.length) ++ sep2 ++
  cs.flatMap (fun c => c.timePad ++ c.toks.flatMap id ++ c.sep)

/-- The catalog `catalogStream` decodes to (assignment order of the
per-class loop). -/
def catalogOf (cs : List ClassSec) : Catalog :=
  (cs.map (fun c => (c.name, c.toks))).foldl
    (fun cat p => alistSet cat p.1 p.2) []

theorem flatMap_len (f : α → List Nat) {l : List α} {k : Nat}
    (h : ∀ x ∈ l, (f x).length = k) : (l.flatMap f).length = l.length * k := by
  induction l with
  | nil => simp
  | cons a l ih =>
    simp only [List.flatMap_cons, List.length_append, List.length_cons]
    rw [h a (by simp), ih (fun x hx => h x (by simp [hx]))]
    ring

theorem chunk4_of_len4 {w : List Nat} (h : w.length = 4) (l : List Nat) :
    chunk4 (w ++ l) = w :: chunk4 l := by
  match w, h with
  | [a, b, c, d], _ => rfl

theorem chunk4_flat (f : α → List Nat) {l : List α}
    (h : ∀ x ∈ l, (f x).length = 4) : chunk4 (l.flatMap f) = l.map f := by
  induction l with
  | nil => rfl
  | cons a l ih =>
    simp only [List.flatMap_cons, List.map_cons]
    rw [chunk4_of_len4 (h a (by simp)), ih (fun x hx => h x (by simp [hx]))]

theorem beWord_beIntBytes {n : Nat} (h : n < 2 ^ 32) :
    beWord (beIntBytes n) = n := by
  simp only [beIntBytes, beWord]
  omega

theorem toInt32_natCast {n : Nat} (h : n < 2 ^ 31) : toInt32 n = (n : Int) := by
  simp only [toInt32]
  rw [if_pos (by exact_mod_cast h)]

theorem readClassnames_exact {names : List (List Nat)}
    (h : ∀ nm ∈ names, nm.length = 8) (rest : BStream) :
    readClassnames names.length (names.flatMap id ++ rest) =
      .ok (names, rest) := by
  induction names with
  | nil => rfl
  | cons nm names ih =>
    simp only [List.flatMap_cons, id, List.append_assoc, List.length_cons]
    simp only [readClassnames, readBytes_exact (h nm (by simp))]
    rw [ih (fun x hx => h x (by simp [hx]))]

theorem readVarTokens_exact {cs : List ClassSec}
    (hwf : ∀ c ∈ cs, classSecWf c) (rest : BStream) :
    readVarTokens (cs.map (fun c => (c.toks.length : Int)))
        (cs.flatMap (fun c => c.timePad ++ (c.toks.flatMap id ++ c.sep)) ++ rest) =
      .ok (cs.map (·.toks), rest) := by
  induction cs with
  | nil => rfl
  | cons c cs ih =>
    obtain ⟨-, htp, htoks, hsep, -⟩ := hwf c (by simp)
    have hflat : (c.toks.flatMap id).length = c.toks.length * 4 :=
      flatMap_len id (fun t ht => htoks t ht)
    have ih' := ih (fun x hx => hwf x (by simp [hx]))
    simp only [List.flatMap_cons, List.map_cons, List.append_assoc]
    simp only [readVarTokens, Int.toNat_natCast, drop_of_len htp,
      readBytes_exact hflat, drop_of_len hsep]
    rw [chunk4_flat id (fun t ht => htoks t ht)]
    rw [ih']
    simp [List.map_id]

theorem alistFind_set_same (l : List (List Nat × α)) (k : List Nat) (v : α) :
    alistFind (alistSet l k v) k = some v := by
  induction l with
  | nil => simp [alistSet, alistFind]
  | cons p l ih =>
    by_cases h : p.1 = k
    · simp [alistSet, alistFind, h]
    · simp only [alistSet]
      rw [if_neg h]
      simp only [alistFind]
      rw [if_neg h]
      exact ih

theorem alistFind_set_other (l : List (List Nat × α)) {k k' : List Nat}
    (v : α) (h : k' ≠ k) : alistFind (alistSet l k' v) k = alistFind l k := by
  induction l with
  | nil => simp [alistSet, alistFind, h]
  | cons p l ih =>
    by_cases hp : p.1 = k'
    · simp only [alistSet]
      rw [if_pos hp]
      simp only [alistFind]
      rw [if_neg h, if_neg (hp ▸ h)]
    · simp only [alistSet]
      rw [if_neg hp]
      simp only [alistFind]
      by_cases hk : p.1 = k
      · rw [if_pos hk, if_pos hk]
      · rw [if_neg hk, if_neg hk]
        exact ih

theorem alistFind_foldl_not_mem (ps : List (List Nat × α))
    (acc : List (List Nat × α)) {k : List Nat}
    (h : ∀ p ∈ ps, p.1 ≠ k) :
    alistFind (ps.foldl (fun cat p => alistSet cat p.1 p.2) acc) k =
      alistFind acc k := by
  induction ps generalizing acc with
  | nil => rfl
  | cons p ps ih =>
    simp only [List.foldl_cons]
    rw [ih (alistSet acc p.1 p.2) (fun q hq => h q (by simp [hq]))]
    exact alistFind_set_other acc p.2 (h p (by simp))

theorem alistFind_foldl_nodup (ps : List (List Nat × α))
    (acc : List (List Nat × α)) (hnd : (ps.map (·.1)).Nodup) :
    ∀ p ∈ ps,
      alistFind (ps.foldl (fun cat q => alistSet cat q.1 q.2) acc) p.1 =
        some p.2 := by
  induction ps generalizing acc with
  | nil => intro p hp; cases hp
  | cons q ps ih =>
    intro p hp
    simp only [List.map_cons, List.nodup_cons] at hnd
    rcases List.mem_cons.mp hp with rfl | hmem
    · simp only [List.foldl_cons]
      rw [alistFind_foldl_not_mem ps (alistSet acc p.1 p.2)
        (fun r hr hrk => hnd.1 (by rw [← hrk]; exact List.mem_map_of_mem (·.1) hr))]
      exact alistFind_set_same acc p.1 p.2
    · simp only [List.foldl_cons]
      exact ih (alistSet acc q.1 q.2) hnd.2 p hmem

/-- Counterexample input to C5's per-class layout: two classes laid out as
the code reads them (one shared 8-byte separator between consecutive
classes). -/
def c5Stream : BStream :=
  List.replicate 8 0 ++ strBytes "AAAAAAAA" ++ strBytes "BBBBBBBB" ++
  List.replicate 8 0 ++ beIntBytes 1 ++ beIntBytes 1 ++
  List.replicate 8 0 ++ List.replicate 4 0 ++ strBytes "VAR1" ++
  List.replicate 8 0 ++ List.replicate 4 0 ++ strBytes "VAR2" ++
  List.replicate 8 0

/-- Counterexample to C5 as stated.  C5 reads the per-class layout as four
steps per class — skip 8, skip 4, read the tokens, skip a trailing 8 — i.e.
16 separator bytes between consecutive classes.  The code shares one 8-byte
separator between consecutive classes (one skip before the loop, then
skip-4/read/skip-8 per class).  On the two-class stream `c5Stream`, laid
out as the code reads it, the code's decoder returns VAR1/VAR2, while a
decoder that follows the claim's per-class steps misparses class B's token
(it reads separator bytes instead of VAR2). -/
theorem c5_catalog_layout_counterexample :
    readVarnames 2 c5Stream =
      .ok ([(strBytes "AAAAAAAA", [strBytes "VAR1"]),
            (strBytes "BBBBBBBB", [strBytes "VAR2"])], []) ∧
    readVarnamesClaim 2 c5Stream =
      .ok ([(strBytes "AAAAAAAA", [strBytes "VAR1"]),
            (strBytes "BBBBBBBB", [[0, 0, 0, 0]])], []) ∧
    readVarnamesClaim 2 c5Stream ≠ readVarnames 2 c5Stream := by
  exact ⟨by decide, by decide, by decide⟩

/-- C5 amended.  After the class-name and count sections (a negative
byte-swapped count fails with `BadHeader`), the decoder skips one 8-byte
separator and then, for each class in order, skips the 4-byte time-variable
placeholder, bulk-reads `count * 4` bytes split into 4-byte tokens, and
skips an 8-byte trailing separator — so consecutive classes share one
8-byte separator; the catalog maps each class name to its codes in the
order read (for distinct class names the mapping holds per class, and a
Plot's within-class order is preserved). -/
theorem c5_catalog_decode :
    (∀ (sep0 sep1 sep2 : List Nat) (cs : List ClassSec) (rest : BStream),
        sep0.length = 8 → sep1.length = 8 → sep2.length = 8 →
        (∀ c ∈ cs, classSecWf c) →
        readVarnames cs.length (catalogStream sep0 sep1 sep2 cs ++ rest) =
          .ok (catalogOf cs, rest))
    ∧ (∀ cs : List ClassSec, (cs.map (·.name)).Nodup →
        ∀ c ∈ cs, alistFind (catalogOf cs) c.name = some c.toks)
    ∧ (∀ (sep0 sep1 : List Nat) (names countWords : List (List Nat))
          (tail : BStream),
        sep0.length = 8 → sep1.length = 8 →
        (∀ nm ∈ names, nm.length = 8) → (∀ w ∈ countWords, w.length = 4) →
        countWords.length = names.length →
        (countWords.map (fun w => toInt32 (beWord w))).any (· < 0) = true →
        readVarnames names.length
            (sep0 ++ names.flatMap id ++ sep1 ++ countWords.flatMap id ++ tail) =
          .error .badHeader) := by
  refine ⟨?_, ?_, ?_⟩
  · intro sep0 sep1 sep2 cs rest h0 h1 h2 hwf
    have hnames : ∀ nm ∈ cs.map (·.name), nm.length = 8 := by
      intro nm hnm
      obtain ⟨c, hc, rfl⟩ := List.mem_map.mp hnm
      exact (hwf c hc).1
    have hflatn : (cs.map (·.name)).flatMap id = cs.flatMap (·.name) := by
      simp [List.flatMap_map]
    have hcw : ∀ x ∈ cs, (beIntBytes x.toks.length).length = 4 := by
      intro x hx; simp [beIntBytes]
    have hcountlen : (cs.flatMap (fun c => beIntBytes c.toks.length)).length =
        cs.length * 4 := flatMap_len (fun c => beIntBytes c.toks.length) hcw
    simp only [catalogStream, List.append_assoc]
    simp only [readVarnames, drop_of_len h0]
    rw [← hflatn, ← List.length_map cs (·.name), readClassnames_exact hnames]
    simp only [drop_of_len h1, List.length_map, readBytes_exact hcountlen]
    rw [chunk4_flat (fun c => beIntBytes c.toks.length) hcw]
    have hcounts : (cs.map (fun c => beIntBytes c.toks.length)).map
        (fun w => toInt32 (beWord w)) = cs.map (fun c => (c.toks.length : Int)) := by
      rw [List.map_map]
      refine List.map_congr_left ?_
      intro c hc
      have hlt : c.toks.length < 2 ^ 31 := (hwf c hc).2.2.2.2
      simp only [Function.comp]
      rw [beWord_beIntBytes (by omega), toInt32_natCast hlt]
    rw [hcounts]
    rw [if_neg (by
      simp only [List.any_eq_true, not_exists, not_and]
      rintro x hx
      obtain ⟨c, -, rfl⟩ := List.mem_map.mp hx
      simp)]
    simp only [drop_of_len h2]
    rw [readVarTokens_exact hwf rest]
    simp only [catalogOf, List.zip_map']
  · intro cs hnd c hc
    have := alistFind_foldl_nodup (cs.map (fun c => (c.name, c.toks))) []
      (by simpa [List.map_map, Function.comp] using hnd)
      (c.name, c.toks) (List.mem_map_of_mem _ hc)
    simpa [catalogOf] using this
  · intro sep0 sep1 names countWords tail h0 h1 hnames hcw hlen hneg
    simp only [List.append_assoc]
    simp only [readVarnames, drop_of_len h0]
    rw [readClassnames_exact hnames]
    have hcwlen : (countWords.flatMap id).length = names.length * 4 := by
      rw [flatMap_len id (fun w hw => hcw w hw), hlen]
    simp only [drop_of_len h1, readBytes_exact hcwlen]
    rw [chunk4_flat id (fun w hw => hcw w hw)]
    rw [if_pos (by simpa [List.map_id] using hneg)]

set_option maxRecDepth 100000 in
/-- Witness for the amended C5 at a concrete one-class catalog stream
(class FIELD with codes QOP and WCUT), applying the layout clause. -/
theorem c5_catalog_decode_witness :
    readVarnames 1
        (catalogStream (List.replicate 8 0) (List.replicate 8 0)
          (List.replicate 8 0)
          [⟨strBytes "FIELD   ", List.replicate 4 0,
            [strBytes "QOP ", strBytes "WCUT"], List.replicate 8 0⟩] ++
          stopWord) =
      .ok (catalogOf
            [⟨strBytes "FIELD   ", List.replicate 4 0,
              [strBytes "QOP ", strBytes "WCUT"], List.replicate 8 0⟩],
           stopWord) :=
  c5_catalog_decode.1 (List.replicate 8 0) (List.replicate 8 0)
    (List.replicate 8 0)
    [⟨strBytes "FIELD   ", List.replicate 4 0,
      [strBytes "QOP ", strBytes "WCUT"], List.replicate 8 0⟩]
    stopWord (by decide) (by decide) (by decide) (by decide)

/-! Structure of `fieldSmspec`: the fold splits into the mapped codes'
nodes and the unmapped codes' warnings. -/

theorem fieldSmspec_go (plt : NexusPlot) (l : List (List Nat)) :
    ∀ acc : FieldSmspec,
      l.foldl
        (fun acc v =>
          match alistFind kwNex2Ecl v with
          | some _ =>
            { acc with vars := acc.vars ++ [mkVarOf plt v],
                       nodes := acc.nodes ++ entriesOf plt v }
          | none => { acc with warns := acc.warns ++ [v] }) acc =
      ⟨acc.vars ++
        (l.filter (fun v => (alistFind kwNex2Ecl v).isSome)).map (mkVarOf plt),
       acc.nodes ++
        (l.filter (fun v => (alistFind kwNex2Ecl v).isSome)).flatMap (entriesOf plt),
       acc.warns ++ l.filter (fun v => (alistFind kwNex2Ecl v).isNone)⟩ := by
  induction l with
  | nil => intro acc; simp
  | cons v l ih =>
    intro acc
    cases h : alistFind kwNex2Ecl v with
    | some k =>
      simp only [List.foldl_cons, h, List.filter_cons, Option.isSome_some,
        Option.isNone_some, if_true, Bool.false_eq_true, if_false]
      rw [ih]
      simp [List.append_assoc]
    | none =>
      simp only [List.foldl_cons, h, List.filter_cons, Option.isSome_none,
        Option.isNone_none, if_true, Bool.false_eq_true, if_false]
      rw [ih]
      simp [List.append_assoc]

theorem fieldSmspec_eq (plt : NexusPlot) :
    fieldSmspec plt =
      ⟨(mappedFieldVars plt).map (mkVarOf plt),
       (mappedFieldVars plt).flatMap (entriesOf plt),
       (fieldVarnames plt).filter (fun v => (alistFind kwNex2Ecl v).isNone)⟩ := by
  unfold fieldSmspec mappedFieldVars
  rw [fieldSmspec_go plt (fieldVarnames plt) ⟨[], [], []⟩]
  simp

theorem nodes_all_lt_iff (plt : NexusPlot) (k : Nat) :
    ((fieldSmspec plt).nodes.all (fun n => n.timestepIndex < k) = true) ↔
      ∀ v ∈ mappedFieldVars plt,
        ((fieldSamples plt).filter (isVarname v)).length ≤ k := by
  rw [fieldSmspec_eq]
  simp only [List.all_eq_true, List.mem_flatMap, decide_eq_true_eq]
  constructor
  · intro h v hv
    cases hc : ((fieldSamples plt).filter (isVarname v)).length with
    | zero => omega
    | succ m =>
      have hmem : (⟨mkVarOf plt v,
          (((fieldSamples plt).filter (isVarname v)).getD m dfltData).value, m⟩ :
            EclNode) ∈ entriesOf plt v := by
        simp only [entriesOf, List.mem_map, hc]
        exact ⟨m, by simp [List.mem_range], rfl⟩
      have := h _ ⟨v, hv, hmem⟩
      simp only at this
      omega
  · rintro h x ⟨v, hv, hx⟩
    simp only [entriesOf, List.mem_map] at hx
    obtain ⟨i, hi, rfl⟩ := hx
    simp only [List.mem_range] at hi
    have := h v hv
    simp only
    omega

/-- C8.  For every FIELD-class variable code absent from the keyword table,
`field_smspec` emits a warning diagnostic naming the code and skips it: the
node list is exactly the concatenation, over the mapped codes only, of
their per-code value entries (so the unmapped code's samples contribute
nothing), one keyword node is created per mapped code, and every mapped
code's entries appear in the output — the conversion itself never fails. -/
theorem c8_unmapped_code_skipped (plt : NexusPlot) (v : List Nat)
    (hv : v ∈ fieldVarnames plt) (hnone : alistFind kwNex2Ecl v = none) :
    v ∈ (fieldSmspec plt).warns ∧
    v ∉ mappedFieldVars plt ∧
    (fieldSmspec plt).nodes = (mappedFieldVars plt).flatMap (entriesOf plt) ∧
    (fieldSmspec plt).vars = (mappedFieldVars plt).map (mkVarOf plt) ∧
    ∀ w ∈ mappedFieldVars plt, ∀ x ∈ entriesOf plt w,
      x ∈ (fieldSmspec plt).nodes := by
  rw [fieldSmspec_eq]
  refine ⟨?_, ?_, rfl, rfl, ?_⟩
  · simp only [List.mem_filter]
    exact ⟨hv, by simp [hnone]⟩
  · simp only [mappedFieldVars, List.mem_filter]
    rintro ⟨-, hs⟩
    rw [hnone] at hs
    cases hs
  · intro w hw x hx
    simp only [List.mem_flatMap]
    exact ⟨w, hw, hx⟩

/-- Concrete plot for the C8 witness: a single FIELD/NETWORK sample whose
variable code ZZZ has no entry in the keyword table. -/
def c8Plot : NexusPlot :=
  ⟨wfHeader, [⟨1, 0, 0, strBytes "FIELD   ", strBytes "NETWORK ",
    strBytes "ZZZ ", 7⟩]⟩

/-- Witness for C8: on `c8Plot` the unmapped code ZZZ is warned about and
the node list (built from mapped codes only) is empty. -/
theorem c8_unmapped_code_skipped_witness :
    strBytes "ZZZ" ∈ (fieldSmspec c8Plot).warns ∧
    (fieldSmspec c8Plot).nodes =
      (mappedFieldVars c8Plot).flatMap (entriesOf c8Plot) :=
  ⟨(c8_unmapped_code_skipped c8Plot (strBytes "ZZZ") (by decide) (by decide)).1,
   (c8_unmapped_code_skipped c8Plot (strBytes "ZZZ") (by decide) (by decide)).2.2.1⟩

/-- C7 amended.  The converter contains no elapsed-time consistency check:
`nex::ecl_summary` never fails with `InconsistentTimeAxis` on any plot (its
only failure mode is the out-of-bounds vector access modelled as
`outOfBounds`); conflicting elapsed times for one timestep are silently
paired positionally with the sorted distinct timestep indices. -/
theorem c7_no_time_axis_check (plt : NexusPlot) :
    eclSummary plt ≠ .error .inconsistentTimeAxis := by
  intro h
  simp only [eclSummary] at h
  split at h
  · split at h
    · exact Except.noConfusion h
    · simp at h
  · simp at h

/-- First filtered sample of the C7 counterexample plot: FIELD/NETWORK,
timestep 1, elapsed time 0.0f. -/
def c7d1 : NexusData :=
  ⟨1, 0, 0, strBytes "FIELD   ", strBytes "NETWORK ", strBytes "QOP ", 5⟩

/-- Second filtered sample of the C7 counterexample plot: FIELD/NETWORK,
same timestep 1, different elapsed time 1.0f (unmapped code ZZZ so that
the in-bounds precondition stays satisfied). -/
def c7d2 : NexusData :=
  ⟨1, 0x3F800000, 0, strBytes "FIELD   ", strBytes "NETWORK ",
   strBytes "ZZZ ", 6⟩

/-- The C7 counterexample plot. -/
def c7Plot : NexusPlot := ⟨wfHeader, [c7d1, c7d2]⟩

/-- Counterexample to C7 as stated: `c7Plot` has two FIELD/NETWORK samples
sharing timestep 1 with different elapsed-time values (0.0f and 1.0f), yet
`nex::ecl_summary` succeeds — it does not fail with
`InconsistentTimeAxis`. -/
theorem c7_counterexample :
    c7d1 ∈ c7Plot.data ∧ c7d2 ∈ c7Plot.data ∧
    (isClassname "FIELD" c7d1 && isInstancename "NETWORK" c7d1) = true ∧
    (isClassname "FIELD" c7d2 && isInstancename "NETWORK" c7d2) = true ∧
    c7d1.timestep = c7d2.timestep ∧
    fl32Eq c7d1.time c7d2.time = false ∧
    (eclSummary c7Plot).isOk = true := by
  exact ⟨by decide, by decide, by decide, by decide, by decide, by decide,
    by decide⟩

/-- Witness accompanying the amended C7, applying it at the concrete
counterexample plot. -/
theorem c7_no_time_axis_check_witness :
    eclSummary c7Plot ≠ .error .inconsistentTimeAxis :=
  c7_no_time_axis_check c7Plot

/-- C10.  In `nex::ecl_summary` every converted value is written to the
timestep record indexed by the value's position in its code's filtered,
timestep-sorted sample list, the elapsed time of the k-th record is taken
from the k-th distinct elapsed-time value, and all the vector accesses are
in bounds exactly when every mapped FIELD/NETWORK code has at most as many
samples as there are distinct timestep indices and there are at least as
many distinct elapsed times as distinct timestep indices. -/
theorem c10_inbounds_iff (plt : NexusPlot) :
    ((eclSummary plt).isOk = true ↔ c10Pre plt) ∧
    (∀ es : EclSum, eclSummary plt = .ok es →
      es.tsteps = (List.range (uniqueTimesteps plt).length).map
        (fun i => (i + 1, (uniqueTimes plt).getD i 0)) ∧
      es.assigns = (fieldSmspec plt).nodes.map
        (fun n => (n.timestepIndex, n.node, n.value))) := by
  constructor
  · by_cases h1 : (uniqueTimesteps plt).length ≤ (uniqueTimes plt).length
    · by_cases h2 : ((fieldSmspec plt).nodes.all
          (fun n => n.timestepIndex < (uniqueTimesteps plt).length)) = true
      · have hok : (eclSummary plt).isOk = true := by
          simp only [eclSummary, if_pos h1, h2, if_true]
          rfl
        simp only [hok, true_iff]
        exact ⟨(nodes_all_lt_iff plt _).mp h2, h1⟩
      · have hko : eclSummary plt = .error .outOfBounds := by
          simp only [eclSummary, if_pos h1]
          rw [if_neg h2]
        rw [hko]
        constructor
        · intro hcontra
          exact absurd hcontra (by decide)
        · rintro ⟨hpre1, -⟩
          exact absurd ((nodes_all_lt_iff plt _).mpr hpre1) h2
    · have hko : eclSummary plt = .error .outOfBounds := by
        simp only [eclSummary]
        rw [if_neg h1]
      rw [hko]
      constructor
      · intro hcontra
        exact absurd hcontra (by decide)
      · rintro ⟨-, hpre2⟩
        exact absurd hpre2 h1
  · intro es hes
    simp only [eclSummary] at hes
    split at hes
    · split at hes
      · obtain rfl := (Except.ok.injEq _ _).mp hes
        exact ⟨rfl, rfl⟩
      · exact Except.noConfusion hes
    · exact Except.noConfusion hes

/-- Concrete plot for the C10 witness: one FIELD/NETWORK sample per code
QOP and WCUT at timestep 1 — the precondition holds and the conversion
succeeds. -/
def c10Plot : NexusPlot :=
  ⟨wfHeader,
   [⟨1, 0, 0, strBytes "FIELD   ", strBytes "NETWORK ", strBytes "QOP ",
     0x41480000⟩,
    ⟨1, 0, 0, strBytes "FIELD   ", strBytes "NETWORK ", strBytes "WCUT",
     0x3E99999A⟩]⟩

/-- Witness for C10: the precondition holds on `c10Plot`, so the conversion
succeeds. -/
theorem c10_inbounds_iff_witness : (eclSummary c10Plot).isOk = true :=
  (c10_inbounds_iff c10Plot).1.mpr (by decide)

/-- Expected converter output for the C9 end-to-end scenario. -/
def c9Sum : EclSum :=
  ⟨1, 1, 1980, 0, 0, 0,
   [⟨strBytes "FOPR", strBytes "SM3/DAY"⟩, ⟨strBytes "FWCT", strBytes "SM3/SM3"⟩],
   [(1, 0)],
   [(0, ⟨strBytes "FOPR", strBytes "SM3/DAY"⟩, 0x41480000),
    (0, ⟨strBytes "FWCT", strBytes "SM3/SM3"⟩, 0x3E99999A)]⟩

/-- C9.  Under metric-bars the keyword table maps QOP to FOPR with unit
"SM3/DAY" and WCUT to FWCT with unit "SM3/SM3"; for the plot with one class
FIELD carrying codes QOP and WCUT and a single block at timestep 1 with one
instance NETWORK and values 12.5f and 0.3f (bit patterns 0x41480000 and
0x3E99999A), the conversion yields series FOPR ↦ [(0, 12.5f)] and FWCT ↦
[(0, 0.3f)], bit-identically. -/
theorem c9_metric_bars_conversion :
    alistFind kwNex2Ecl (strBytes "QOP") = some (strBytes "FOPR") ∧
    unitStrVar .metric_bars (strBytes "QOP") = strBytes "SM3/DAY" ∧
    alistFind kwNex2Ecl (strBytes "WCUT") = some (strBytes "FWCT") ∧
    unitStrVar .metric_bars (strBytes "WCUT") = strBytes "SM3/SM3" ∧
    eclSummary c10Plot = .ok c9Sum ∧
    seriesFor c9Sum "FOPR" = [(0, 0x41480000)] ∧
    seriesFor c9Sum "FWCT" = [(0, 0x3E99999A)] := by
  exact ⟨by decide, by decide, by decide, by decide, by decide, by decide,
    by decide⟩

end NexusModel
